import Mathlib

/-!
# Verification of the mermerd analyzer and diagram-builder core

This file gives a shallow embedding of the mermerd selection-resolution
pipeline (`analyzer/analyzer.go`) and of the diagram-model builder, and
proves the specified properties about them.

Conventions of the embedding:
* Go functions returning `(value, error)` pairs are modelled as
  `value × Option String`, where `none` means a `nil` error; the `value`
  component of an error return is the Go zero value (empty list / empty
  string), exactly as in the source.
* Go's `sort.SliceStable` with a strict `less` predicate is modelled as
  `List.insertionSort` with the reflexive relation `fun a b => less b a = false`;
  insertion sort (folding from the right) is a stable sort for that relation,
  which is the semantics Go guarantees.
* External collaborators (database connector, interactive questioner,
  connector factory) are modelled as records of pure functions, universally
  quantified in the theorems.
-/

namespace Mermerd

/-- `database.TableDetail`: `{Schema, Name}` (spec §3, TableDescriptor).
The struct itself lives in the `database` package (not under `src/`); the
fields are those given by the spec's data model and used by `analyzer.go`. -/
structure TableDetail where
  Schema : String
  Name : String
deriving DecidableEq, Repr, Inhabited

/-- `database.ColumnResult` (spec §3, ColumnDescriptor). -/
structure ColumnResult where
  Name : String
  DataType : String
  IsPrimary : Bool
  IsForeign : Bool
  EnumValues : String
  Comment : String
deriving DecidableEq, Repr, Inhabited

/-- `database.ConstraintResult` (spec §3, ConstraintDescriptor). -/
structure ConstraintResult where
  FkTable : String
  PkTable : String
  ColumnName : String
  ConstraintName : String
  IsPrimary : Bool
  HasMultiplePK : Bool
deriving DecidableEq, Repr, Inhabited

/-- `database.TableResult` (spec §3). -/
structure TableResult where
  Table : TableDetail
  Columns : List ColumnResult
  Constraints : List ConstraintResult
deriving DecidableEq, Repr, Inhabited

/-- `database.Result` (spec §3, AnalysisResult). -/
structure Result where
  Tables : List TableResult
deriving DecidableEq, Repr, Inhabited

/-- `config.MermerdConfig`: the configuration surface (spec §6); Go exposes
these as interface methods, modelled here as record fields. -/
structure MermerdConfig where
  ConnectionString : String
  ConnectionStringSuggestions : List String
  Schemas : List String
  UseAllSchemas : Bool
  SelectedTables : List String
  UseAllTables : Bool
  ShowDescriptions : List String
  OmitAttributeKeys : Bool
  OmitConstraintLabels : Bool
  ShowAllConstraints : Bool
  ShowSchemaPrefix : Bool
  SchemaPrefixSeparator : String
deriving Repr, Inhabited

/-! ## Diagram-model builder

The diagram package's implementation is not under `src/` (only its test
file is); its functions are modelled from the spec (§4.3), and the
repository's test cases for them are re-proved below as examples. -/

/-- Modelled from the spec: `DiagramRelationType` is the enumerated type
{OneToOne, ManyToOne} (spec §3); the source tests name the two values
`relationOneToOne` and `relationManyToOne`. -/
inductive ErdRelationType where
  | relationOneToOne
  | relationManyToOne
deriving DecidableEq, Repr

/-- Modelled from the spec: `DiagramAttributeKey` is the enumerated type
{PrimaryKey, ForeignKey, None} (spec §3); the source tests name the values
`primaryKey`, `foreignKey` and `none`. -/
inductive ErdAttributeKey where
  | primaryKey
  | foreignKey
  | none
deriving DecidableEq, Repr

/-- Modelled from the spec: `DiagramColumnData`, the per-column view struct
consumed by the renderer (spec §3 / §4.3 `buildColumnData`). -/
structure ErdColumnData where
  Name : String
  AttributeKey : ErdAttributeKey
  Description : String
deriving DecidableEq, Repr

/-- Modelled from the spec: `DiagramTableData`, the derived per-table view
struct; the constraint filter and duplicate tracking only consult its
display name (spec §4.3 `tableNameInSlice`), which is what the source test
`TestTableNameInSlice` constructs. -/
structure ErdTableData where
  Name : String
deriving DecidableEq, Repr

/-- Modelled from the spec: `classifyRelation` (`getRelation` in the source
tests): `OneToOne` iff `IsPrimary && !HasMultiplePK`, `ManyToOne` in every
other combination (spec §4.3). -/
def getRelation (constraint : ConstraintResult) : ErdRelationType :=
  if constraint.IsPrimary && !constraint.HasMultiplePK then
    ErdRelationType.relationOneToOne
  else
    ErdRelationType.relationManyToOne

/-- Modelled from the spec: `classifyAttributeKey` (`getAttributeKey` in the
source tests): `PrimaryKey` if `IsPrimary`; else `ForeignKey` if
`IsForeign`; else `None` (spec §4.3). -/
def getAttributeKey (column : ColumnResult) : ErdAttributeKey :=
  if column.IsPrimary then ErdAttributeKey.primaryKey
  else if column.IsForeign then ErdAttributeKey.foreignKey
  else ErdAttributeKey.none

/-- Modelled from the spec: the comment escape of §4.3, character by
character — a literal double quote becomes the sequence `#quot;`, every
other character is kept. -/
def escapeQuotesAux : List Char → List Char
  | [] => []
  | c :: cs => (if c = '"' then "#quot;".data else [c]) ++ escapeQuotesAux cs

/-- Modelled from the spec: every literal double-quote character of the
comment is replaced by the escape sequence `#quot;` (spec §4.3). -/
def escapeQuotes (s : String) : String :=
  ⟨escapeQuotesAux s.data⟩

/-- Modelled from the spec: the enum fragment of the description —
`<value1,value2,...>` when the `enumValues` source is configured and the
column's enum list is non-empty, otherwise empty (spec §4.3). -/
def enumFragment (config : MermerdConfig) (column : ColumnResult) : String :=
  if "enumValues" ∈ config.ShowDescriptions ∧ column.EnumValues ≠ "" then
    "<" ++ column.EnumValues ++ ">"
  else ""

/-- Modelled from the spec: the comment fragment of the description — the
escaped comment when the `columnComments` source is configured and the
comment is non-empty, otherwise empty (spec §4.3). -/
def commentFragment (config : MermerdConfig) (column : ColumnResult) : String :=
  if "columnComments" ∈ config.ShowDescriptions ∧ column.Comment ≠ "" then
    escapeQuotes column.Comment
  else ""

/-- Modelled from the spec: `buildColumnData` (`getColumnData` in the source
tests). The attribute key is `classifyAttributeKey` unless omission is
configured; the description joins the non-empty fragments with a single
space, enum fragment first (spec §4.3). -/
def getColumnData (config : MermerdConfig) (column : ColumnResult) : ErdColumnData :=
  { Name := column.Name
    AttributeKey :=
      if config.OmitAttributeKeys then ErdAttributeKey.none
      else getAttributeKey column
    Description :=
      let e := enumFragment config column
      let c := commentFragment config column
      if e ≠ "" ∧ c ≠ "" then e ++ " " ++ c else e ++ c }

/-- Modelled from the spec: `tableNameInSlice` — exact string equality of
the searched name against each table's display name (spec §4.3). -/
def tableNameInSlice (tables : List ErdTableData) (tableName : String) : Bool :=
  tables.any (fun t => t.Name == tableName)

/-- Modelled from the spec: `shouldSkipConstraint` — never skip when
show-all-constraints is configured; otherwise skip unless both endpoint
tables are present in the diagram (spec §4.3). -/
def shouldSkipConstraint (config : MermerdConfig) (tables : List ErdTableData)
    (constraint : ConstraintResult) : Bool :=
  if config.ShowAllConstraints then false
  else !(tableNameInSlice tables constraint.PkTable
          && tableNameInSlice tables constraint.FkTable)

/-- Modelled from the spec: `buildTableName` (`getTableName` in the source
tests) — the bare name when schema-prefix display is off; otherwise
`schema ++ separator ++ name`, additionally wrapped in double quotes exactly
when the separator is the single full-stop character (spec §4.3). -/
def getTableName (config : MermerdConfig) (table : TableDetail) : String :=
  if config.ShowSchemaPrefix then
    let combined := table.Schema ++ config.SchemaPrefixSeparator ++ table.Name
    if config.SchemaPrefixSeparator = "." then "\"" ++ combined ++ "\"" else combined
  else table.Name

/-! ## Analyzer pipeline (`analyzer/analyzer.go`) -/

/-- `database.Connector`: the Metadata Provider contract (spec §6). Each Go
call returning `(value, error)` is a field returning `value × Option String`.
`Close` is a pure side effect and carries no logic, so it is omitted. -/
structure Connector where
  Connect : Option String
  GetSchemas : List String × Option String
  GetTables : List String → List TableDetail × Option String
  GetColumns : TableDetail → List ColumnResult × Option String
  GetConstraints : TableDetail → List ConstraintResult × Option String

/-- `analyzer.Questioner`: the interactive-prompt contract (spec §6). -/
structure Questioner where
  AskConnectionQuestion : List String → String × Option String
  AskSchemaQuestion : List String → List String × Option String
  AskTableQuestion : List String → List String × Option String

/-- Go's `<` on strings: lexicographic comparison of the character
sequences (byte order and codepoint order agree on valid UTF-8). Written as
a structural recursion so that concrete runs evaluate inside the kernel. -/
def charListLt : List Char → List Char → Bool
  | _, [] => false
  | [], _ :: _ => true
  | a :: as, b :: bs =>
    if a < b then true
    else if b < a then false
    else charListLt as bs

/-- Go's string `<`, on the string's character list. -/
def strLt (a b : String) : Bool := charListLt a.data b.data

/-- The Go `less` closure of `sortTables` (analyzer.go:75-80): schemas first,
names as tie-break. -/
def tableLess (a b : TableDetail) : Bool :=
  if a.Schema ≠ b.Schema then strLt a.Schema b.Schema
  else strLt a.Name b.Name

/-- The non-strict companion of `tableLess`, the order established by the
stable sort. -/
def tableLe (a b : TableDetail) : Prop := tableLess b a = false

instance : DecidableRel tableLe := fun a b => by
  unfold tableLe; infer_instance

/-- `sortTables` (analyzer.go:74-82): Go's `sort.SliceStable` with
`tableLess`, modelled as the stable insertion sort for `tableLe`. -/
def sortTables (tables : List TableDetail) : List TableDetail :=
  tables.insertionSort tableLe

/-- The Go `less` closure of `sortColumns` (analyzer.go:201-205). -/
def columnLess (a b : ColumnResult) : Bool :=
  strLt a.Name b.Name

/-- The non-strict companion of `columnLess`. -/
def columnLe (a b : ColumnResult) : Prop := columnLess b a = false

instance : DecidableRel columnLe := fun a b => by
  unfold columnLe; infer_instance

/-- `sortColumns` (analyzer.go:201-205): Go's `sort.SliceStable` with
`columnLess`. -/
def sortColumns (columns : List ColumnResult) : List ColumnResult :=
  columns.insertionSort columnLe

/-- Modelled from the spec: `database.ParseTableName` is not under `src/`
(only its callers in `analyzer.go` are). Per spec §4.1, a `schema.table`
string is split on the separator consistent with the known schema list (the
first schema that prefixes the string, followed by a full stop); a string
that resolves against no known schema is an error. The character-list
representation keeps the definition structurally recursive. -/
def parseTableName (value : String) (schemas : List String) : Except String TableDetail :=
  match schemas.find? (fun s => (s.data ++ ['.']).isPrefixOf value.data) with
  | Option.some s => Except.ok ⟨s, ⟨value.data.drop (s.data.length + 1)⟩⟩
  | Option.none => Except.error ("could not parse table name " ++ value)

/-- The Go zero value of `database.TableDetail`, produced by
`ParseTableName` on its soft-failure path. -/
def zeroTableDetail : TableDetail := ⟨"", ""⟩

/-- The mapping applied to each configured or chosen `schema.table` string
in `GetTables` (analyzer.go:122-129, 157-164): parse failures are logged and
yield the zero-value descriptor, the pipeline continues. -/
def resolveTableName (schemas : List String) (value : String) : TableDetail :=
  match parseTableName value schemas with
  | Except.ok res => res
  | Except.error _ => zeroTableDetail

/-- `GetConnectionString` (analyzer.go:84-90). -/
def getConnectionString (config : MermerdConfig) (questioner : Questioner) :
    String × Option String :=
  if config.ConnectionString ≠ "" then (config.ConnectionString, Option.none)
  else questioner.AskConnectionQuestion config.ConnectionStringSuggestions

/-- `GetSchemas` (analyzer.go:92-118). -/
def getSchemas (config : MermerdConfig) (questioner : Questioner) (db : Connector) :
    List String × Option String :=
  if 0 < config.Schemas.length then (config.Schemas, Option.none)
  else
    match db.GetSchemas with
    | (_, Option.some e) => ([], Option.some e)
    | (schemas, Option.none) =>
      if config.UseAllSchemas then (schemas, Option.none)
      else
        match schemas with
        | [] => ([], Option.some "no schemas available")
        | [s] => ([s], Option.none)
        | _ => questioner.AskSchemaQuestion schemas

/-- `GetTables` (analyzer.go:120-165). -/
def getTables (config : MermerdConfig) (questioner : Questioner) (db : Connector)
    (selectedSchemas : List String) : List TableDetail × Option String :=
  if 0 < config.SelectedTables.length then
    (config.SelectedTables.map (resolveTableName selectedSchemas), Option.none)
  else
    match db.GetTables selectedSchemas with
    | (_, Option.some e) => ([], Option.some e)
    | (tables, Option.none) =>
      if config.UseAllTables then (tables, Option.none)
      else
        match questioner.AskTableQuestion
            (tables.map fun t => t.Schema ++ "." ++ t.Name) with
        | (_, Option.some e) => ([], Option.some e)
        | (surveyResult, Option.none) =>
          (surveyResult.map (resolveTableName selectedSchemas), Option.none)

/-- `GetColumnsAndConstraints` (analyzer.go:167-190): the per-table fetch
loop; the first failing fetch aborts with `nil` results and that error. -/
def getColumnsAndConstraints (db : Connector) :
    List TableDetail → List TableResult × Option String
  | [] => ([], Option.none)
  | table :: rest =>
    match db.GetColumns table with
    | (_, Option.some e) => ([], Option.some e)
    | (columns, Option.none) =>
      match db.GetConstraints table with
      | (_, Option.some e) => ([], Option.some e)
      | (constraints, Option.none) =>
        match getColumnsAndConstraints db rest with
        | (_, Option.some e) => ([], Option.some e)
        | (results, Option.none) =>
          (⟨table, sortColumns columns, constraints⟩ :: results, Option.none)

/-- `Analyze` (analyzer.go:36-72): resolve the connection string, obtain and
connect a connector, resolve schemas and tables, sort the tables, then load
columns and constraints. -/
def analyze (config : MermerdConfig) (questioner : Questioner)
    (connectorFactory : String → Connector × Option String) :
    Option Result × Option String :=
  match getConnectionString config questioner with
  | (_, Option.some e) => (Option.none, Option.some e)
  | (connectionString, Option.none) =>
    match connectorFactory connectionString with
    | (_, Option.some e) => (Option.none, Option.some e)
    | (db, Option.none) =>
      match db.Connect with
      | Option.some e => (Option.none, Option.some e)
      | Option.none =>
        match getSchemas config questioner db with
        | (_, Option.some e) => (Option.none, Option.some e)
        | (selectedSchemas, Option.none) =>
          match getTables config questioner db selectedSchemas with
          | (_, Option.some e) => (Option.none, Option.some e)
          | (selectedTables, Option.none) =>
            match getColumnsAndConstraints db (sortTables selectedTables) with
            | (_, Option.some e) => (Option.none, Option.some e)
            | (tableResults, Option.none) => (Option.some ⟨tableResults⟩, Option.none)

/-! ## Concrete fixtures

Inputs taken from the repository's test file, used by the examples and the
witness theorems below. -/

/-- A configuration with every toggle off and every list empty; the
fixtures below override single fields. -/
def baseConfig : MermerdConfig :=
  ⟨"", [], [], false, [], false, [], false, false, false, false, ""⟩

/-- The column of `TestGetColumnData`: enum values `a,b` and a
structured-text comment containing literal double quotes. -/
def testColumn : ColumnResult :=
  ⟨"testColumn", "", true, false, "a,b", "\x7b\"comment\":\"detail\"\x7d"⟩

/-- A questioner whose answers are all empty. -/
def trivialQuestioner : Questioner :=
  ⟨fun _ => ("", Option.none), fun _ => ([], Option.none), fun _ => ([], Option.none)⟩

/-- A connector whose columns fetch fails with `boom` exactly on the table
named `bad`. -/
def failingColumnsDb : Connector :=
  { Connect := Option.none
    GetSchemas := ([], Option.none)
    GetTables := fun _ => ([], Option.none)
    GetColumns := fun t =>
      if t.Name = "bad" then ([], Option.some "boom") else ([], Option.none)
    GetConstraints := fun _ => ([], Option.none) }

/-- A connector exposing no schemas. -/
def zeroSchemasDb : Connector :=
  ⟨Option.none, ([], Option.none), fun _ => ([], Option.none), fun _ => ([], Option.none),
    fun _ => ([], Option.none)⟩

/-- A connector exposing exactly one schema. -/
def oneSchemaDb : Connector :=
  ⟨Option.none, (["main"], Option.none), fun _ => ([], Option.none),
    fun _ => ([], Option.none), fun _ => ([], Option.none)⟩

/-- A connector exposing two schemas. -/
def twoSchemasDb : Connector :=
  ⟨Option.none, (["alpha", "beta"], Option.none), fun _ => ([], Option.none),
    fun _ => ([], Option.none), fun _ => ([], Option.none)⟩

/-- A questioner answering the schema multi-select with a fixed choice. -/
def choosyQuestioner : Questioner :=
  ⟨fun _ => ("", Option.none), fun _ => (["beta"], Option.none), fun _ => ([], Option.none)⟩

/-- Configuration choosing tables explicitly, one resolvable and one not. -/
def explicitTablesConfig : MermerdConfig :=
  { baseConfig with SelectedTables := ["s.good", "bad"] }

/-- Configuration for a full `analyze` run: explicit schema list and
use-all-tables, so the table set comes from the provider. -/
def dupRunConfig : MermerdConfig :=
  { baseConfig with ConnectionString := "c", Schemas := ["s"], UseAllTables := true }

/-- A connector whose table list contains the same table twice. -/
def dupTablesDb : Connector :=
  { Connect := Option.none
    GetSchemas := ([], Option.none)
    GetTables := fun _ => ([⟨"s", "a"⟩, ⟨"s", "a"⟩], Option.none)
    GetColumns := fun _ => ([], Option.none)
    GetConstraints := fun _ => ([], Option.none) }

/-- A factory handing out `dupTablesDb`. -/
def dupTablesFactory : String → Connector × Option String :=
  fun _ => (dupTablesDb, Option.none)

/-- A connector whose table list is unsorted (names out of order). -/
def unsortedTablesDb : Connector :=
  { Connect := Option.none
    GetSchemas := ([], Option.none)
    GetTables := fun _ => ([⟨"s", "b"⟩, ⟨"s", "a"⟩], Option.none)
    GetColumns := fun _ => ([], Option.none)
    GetConstraints := fun _ => ([], Option.none) }

/-- A factory handing out `unsortedTablesDb`. -/
def unsortedTablesFactory : String → Connector × Option String :=
  fun _ => (unsortedTablesDb, Option.none)

/-- The ordering C6 claims for a successful run, as stated: strictly
increasing (Schema, Name) keys over the table results, and columns
ascending by name within each result. -/
def strictTableOrder (res : Result) : Prop :=
  res.Tables.Pairwise (fun A B =>
    strLt A.Table.Schema B.Table.Schema = true ∨
    (A.Table.Schema = B.Table.Schema ∧ strLt A.Table.Name B.Table.Name = true)) ∧
  ∀ tr ∈ res.Tables,
    tr.Columns.Pairwise (fun a b => strLt a.Name b.Name = true ∨ a.Name = b.Name)

/-- The ordering a successful run actually guarantees: non-decreasing
(Schema, Name) keys (strict whenever the keys differ), and columns
non-decreasing by name. -/
def analyzeResultOrdered (res : Result) : Prop :=
  res.Tables.Pairwise (fun A B =>
    strLt A.Table.Schema B.Table.Schema = true ∨
    (A.Table.Schema = B.Table.Schema ∧
      (strLt A.Table.Name B.Table.Name = true ∨ A.Table.Name = B.Table.Name))) ∧
  ∀ tr ∈ res.Tables,
    tr.Columns.Pairwise (fun a b => strLt a.Name b.Name = true ∨ a.Name = b.Name)

/-! ## Theorems -/

/-- `charListLt` is the lexicographic strict order `List.Lex (· < ·)`. -/
theorem charListLt_iff_lex : ∀ l₁ l₂ : List Char,
    charListLt l₁ l₂ = true ↔ List.Lex (· < ·) l₁ l₂
  | _, [] => by
    simp only [List.Lex.not_nil_right, iff_false]
    cases ‹List Char› <;> simp [charListLt]
  | [], _ :: _ => by simp [charListLt, List.Lex.nil]
  | a :: as, b :: bs => by
    by_cases hab : a < b
    · simp [charListLt, hab, List.Lex.rel]
    · by_cases hba : b < a
      · have hv : charListLt (a :: as) (b :: bs) = false := by
          simp [charListLt, hab, hba]
        rw [hv]
        simp only [Bool.false_eq_true, false_iff]
        intro h
        cases h with
        | rel h => exact hab h
        | cons h => exact lt_irrefl a hba
      · have hEq : a = b := le_antisymm (not_lt.mp hba) (not_lt.mp hab)
        subst hEq
        simp only [charListLt, lt_irrefl, if_false]
        rw [charListLt_iff_lex as bs]
        exact (List.Lex.cons_iff).symm

theorem strLt_irrefl (a : String) : strLt a a = false := by
  by_contra h
  have := (charListLt_iff_lex a.data a.data).mp (by simpa using h)
  exact irrefl_of (List.Lex ((· < ·) : Char → Char → Prop)) a.data this

theorem strLt_asymm {a b : String} (h : strLt a b = true) : strLt b a = false := by
  by_contra hc
  have h₁ := (charListLt_iff_lex a.data b.data).mp h
  have h₂ := (charListLt_iff_lex b.data a.data).mp (by simpa using hc)
  exact asymm_of (List.Lex ((· < ·) : Char → Char → Prop)) h₁ h₂

theorem strLt_trans {a b c : String} (h₁ : strLt a b = true) (h₂ : strLt b c = true) :
    strLt a c = true := by
  simp only [strLt] at h₁ h₂ ⊢
  rw [charListLt_iff_lex] at h₁ h₂ ⊢
  exact trans_of (List.Lex ((· < ·) : Char → Char → Prop)) h₁ h₂

/-- Two strings neither of which is lexicographically below the other are
equal. -/
theorem strLt_antisymm {a b : String} (h₁ : strLt a b = false) (h₂ : strLt b a = false) :
    a = b := by
  rcases trichotomous_of (List.Lex ((· < ·) : Char → Char → Prop)) a.data b.data with h | h | h
  · rw [← charListLt_iff_lex] at h; rw [strLt] at h₁; simp [h₁] at h
  · cases a; cases b; exact congrArg String.mk h
  · rw [← charListLt_iff_lex] at h; rw [strLt] at h₂; simp [h₂] at h

/-! ### Relation classification (C1)

The four rows of `TestGetRelation` re-proved against the model. -/

example :
    getRelation ⟨"tableA", "tableB", "", "constraintXY", true, true⟩ =
      ErdRelationType.relationManyToOne := by decide

example :
    getRelation ⟨"tableA", "tableB", "", "constraintXY", false, true⟩ =
      ErdRelationType.relationManyToOne := by decide

example :
    getRelation ⟨"tableA", "tableB", "", "constraintXY", false, false⟩ =
      ErdRelationType.relationManyToOne := by decide

example :
    getRelation ⟨"tableA", "tableB", "", "constraintXY", true, false⟩ =
      ErdRelationType.relationOneToOne := by decide

/-- C1: for every constraint, `getRelation` returns `OneToOne` iff
`IsPrimary = true` and `HasMultiplePK = false`, and `ManyToOne` in exactly
the other three combinations of the two booleans; no other result is
possible. -/
theorem getRelation_cases (c : ConstraintResult) :
    (getRelation c = ErdRelationType.relationOneToOne ↔
      c.IsPrimary = true ∧ c.HasMultiplePK = false) ∧
    (getRelation c = ErdRelationType.relationManyToOne ↔
      ¬(c.IsPrimary = true ∧ c.HasMultiplePK = false)) := by
  cases c with
  | mk fk pk col con ip hm => cases ip <;> cases hm <;> simp [getRelation]

/-! ### Attribute-key classification (C2)

The four rows of `TestGetAttributeKey` re-proved against the model. -/

example :
    getAttributeKey ⟨"", "", true, false, "", ""⟩ = ErdAttributeKey.primaryKey := by decide

example :
    getAttributeKey ⟨"", "", false, true, "", ""⟩ = ErdAttributeKey.foreignKey := by decide

example :
    getAttributeKey ⟨"", "", true, true, "", ""⟩ = ErdAttributeKey.primaryKey := by decide

example :
    getAttributeKey ⟨"", "", false, false, "", ""⟩ = ErdAttributeKey.none := by decide

/-- C2: for every column, `getAttributeKey` returns `PrimaryKey` whenever
`IsPrimary` is true (regardless of `IsForeign`), `ForeignKey` iff
`IsPrimary` is false and `IsForeign` is true, and `None` iff both flags are
false. -/
theorem getAttributeKey_cases (col : ColumnResult) :
    (col.IsPrimary = true → getAttributeKey col = ErdAttributeKey.primaryKey) ∧
    (getAttributeKey col = ErdAttributeKey.primaryKey ↔ col.IsPrimary = true) ∧
    (getAttributeKey col = ErdAttributeKey.foreignKey ↔
      col.IsPrimary = false ∧ col.IsForeign = true) ∧
    (getAttributeKey col = ErdAttributeKey.none ↔
      col.IsPrimary = false ∧ col.IsForeign = false) := by
  cases col with
  | mk nm dt ip fr ev cm => cases ip <;> cases fr <;> simp [getAttributeKey]

/-- C2 witness: the first conjunct of `getAttributeKey_cases` discharged at
a concrete column with both flags set — primary wins. -/
theorem getAttributeKey_cases_witness :
    getAttributeKey ⟨"id", "int", true, true, "", ""⟩ = ErdAttributeKey.primaryKey :=
  (getAttributeKey_cases ⟨"id", "int", true, true, "", ""⟩).1 rfl

/-! ### Column description assembly (C3)

The six subtests of `TestGetColumnData` re-proved against the model. -/

example :
    getColumnData { baseConfig with ShowDescriptions := ["enumValues", "columnComments"] }
        testColumn =
      ⟨"testColumn", ErdAttributeKey.primaryKey,
        "<a,b> \x7b#quot;comment#quot;:#quot;detail#quot;\x7d"⟩ := by decide

example :
    getColumnData { baseConfig with ShowDescriptions := ["enumValues"] } testColumn =
      ⟨"testColumn", ErdAttributeKey.primaryKey, "<a,b>"⟩ := by decide

example :
    getColumnData { baseConfig with ShowDescriptions := ["columnComments"] } testColumn =
      ⟨"testColumn", ErdAttributeKey.primaryKey,
        "\x7b#quot;comment#quot;:#quot;detail#quot;\x7d"⟩ := by decide

example :
    getColumnData { baseConfig with ShowDescriptions := [""] } testColumn =
      ⟨"testColumn", ErdAttributeKey.primaryKey, ""⟩ := by decide

example :
    getColumnData
        { baseConfig with
          ShowDescriptions := ["enumValues", "columnComments"], OmitAttributeKeys := true }
        testColumn =
      ⟨"testColumn", ErdAttributeKey.none,
        "<a,b> \x7b#quot;comment#quot;:#quot;detail#quot;\x7d"⟩ := by decide

example :
    getColumnData { baseConfig with ShowDescriptions := [""], OmitAttributeKeys := true }
        testColumn =
      ⟨"testColumn", ErdAttributeKey.none, ""⟩ := by decide

theorem escapeQuotesAux_ne_nil : ∀ {l : List Char}, l ≠ [] → escapeQuotesAux l ≠ [] := by
  intro l h
  cases l with
  | nil => exact absurd rfl h
  | cons c cs =>
    by_cases hc : c = '"' <;> simp [escapeQuotesAux, hc]

/-- Escaping a non-empty comment yields a non-empty fragment. -/
theorem escapeQuotes_ne_empty {s : String} (h : s ≠ "") : escapeQuotes s ≠ "" := by
  intro hc
  apply h
  apply String.ext
  have : escapeQuotesAux s.data = [] := congrArg String.data hc
  by_contra hd
  exact escapeQuotesAux_ne_nil (fun hn => hd (by simp [hn])) this

/-- The enum fragment always starts with `<`, so it is never empty. -/
theorem angle_ne_empty (v : String) : "<" ++ v ++ ">" ≠ "" := by
  intro h
  have := congrArg String.data h
  simp at this

theorem escapeQuotesAux_eq_flatMap : ∀ l : List Char,
    escapeQuotesAux l = l.flatMap fun c => if c = '"' then "#quot;".data else [c]
  | [] => rfl
  | c :: cs => by
    simp only [escapeQuotesAux, List.flatMap_cons, escapeQuotesAux_eq_flatMap cs]

/-- C3: the description assembled by `getColumnData` is the enum fragment
`<value1,value2,...>` (present iff `enumValues` is configured and the enum
list is non-empty) and the quote-escaped comment (present iff
`columnComments` is configured and the comment is non-empty), joined by one
space with the enum fragment first when both are present, and empty when
neither is present; escaping replaces every literal `"` by `#quot;`. -/
theorem getColumnData_description_spec :
    (∀ (config : MermerdConfig) (column : ColumnResult),
      (("enumValues" ∈ config.ShowDescriptions ∧ column.EnumValues ≠ "") →
        ("columnComments" ∈ config.ShowDescriptions ∧ column.Comment ≠ "") →
        (getColumnData config column).Description =
          "<" ++ column.EnumValues ++ ">" ++ " " ++ escapeQuotes column.Comment) ∧
      (("enumValues" ∈ config.ShowDescriptions ∧ column.EnumValues ≠ "") →
        ¬("columnComments" ∈ config.ShowDescriptions ∧ column.Comment ≠ "") →
        (getColumnData config column).Description = "<" ++ column.EnumValues ++ ">") ∧
      (¬("enumValues" ∈ config.ShowDescriptions ∧ column.EnumValues ≠ "") →
        ("columnComments" ∈ config.ShowDescriptions ∧ column.Comment ≠ "") →
        (getColumnData config column).Description = escapeQuotes column.Comment) ∧
      (¬("enumValues" ∈ config.ShowDescriptions ∧ column.EnumValues ≠ "") →
        ¬("columnComments" ∈ config.ShowDescriptions ∧ column.Comment ≠ "") →
        (getColumnData config column).Description = "")) ∧
    (∀ s : String,
      (escapeQuotes s).data = s.data.flatMap fun c => if c = '"' then "#quot;".data else [c]) := by
  constructor
  · intro config column
    refine ⟨?_, ?_, ?_, ?_⟩ <;> intro h₁ h₂
    · simp [getColumnData, enumFragment, commentFragment, h₁.1, h₁.2, h₂.1, h₂.2,
        angle_ne_empty column.EnumValues, escapeQuotes_ne_empty h₂.2]
    · simp [getColumnData, enumFragment, commentFragment, h₁.1, h₁.2, h₂]
    · simp [getColumnData, enumFragment, commentFragment, h₁, h₂.1, h₂.2]
    · simp [getColumnData, enumFragment, commentFragment, h₁, h₂]
  · intro s
    simp [escapeQuotes, escapeQuotesAux_eq_flatMap]

/-- C3 witness: `getColumnData_description_spec` applied to the end-to-end
scenario of the spec — comment `{"comment":"detail"}` with only
`columnComments` configured. -/
theorem getColumnData_description_spec_witness :
    (getColumnData { baseConfig with ShowDescriptions := ["columnComments"] }
        testColumn).Description =
      "\x7b#quot;comment#quot;:#quot;detail#quot;\x7d" := by
  have h :=
    ((getColumnData_description_spec.1
        { baseConfig with ShowDescriptions := ["columnComments"] } testColumn).2.2.1
      (by decide) (by decide))
  rw [h]
  decide

/-! ### Constraint visibility filter (C4)

The cases of `TestTableNameInSlice` and `TestShouldSkipConstraint`
re-proved against the model. -/

example : tableNameInSlice [⟨"testTable"⟩] "testTable" = true := by decide

example : tableNameInSlice [⟨"notTheTableName"⟩] "testTable" = false := by decide

example :
    shouldSkipConstraint { baseConfig with ShowAllConstraints := true }
      [⟨"Table1"⟩, ⟨"Table2"⟩] ⟨"", "Table1", "", "", false, false⟩ = false := by decide

example :
    shouldSkipConstraint baseConfig [⟨"Table1"⟩, ⟨"Table2"⟩]
      ⟨"UnknownTable", "Table1", "", "", false, false⟩ = true := by decide

example :
    shouldSkipConstraint baseConfig [⟨"Table1"⟩, ⟨"Table2"⟩]
      ⟨"Table2", "Table1", "", "", false, false⟩ = false := by decide

/-- C4: `shouldSkipConstraint` returns false unconditionally when
show-all-constraints is set; otherwise it returns true iff at least one of
the constraint's `PkTable` or `FkTable` is absent from the known-table list
under exact display-name equality. -/
theorem shouldSkipConstraint_spec (config : MermerdConfig) (tables : List ErdTableData)
    (c : ConstraintResult) :
    (config.ShowAllConstraints = true → shouldSkipConstraint config tables c = false) ∧
    (config.ShowAllConstraints = false →
      (shouldSkipConstraint config tables c = true ↔
        (∀ t ∈ tables, t.Name ≠ c.PkTable) ∨ (∀ t ∈ tables, t.Name ≠ c.FkTable))) := by
  constructor
  · intro h
    simp [shouldSkipConstraint, h]
  · intro h
    simp [shouldSkipConstraint, h, tableNameInSlice, List.any_eq_true, not_or]

/-- C4 witness: `shouldSkipConstraint_spec` discharged on the fixture of
`TestShouldSkipConstraint` — show-all never skips, and a constraint whose
`FkTable` is unknown is skipped. -/
theorem shouldSkipConstraint_spec_witness :
    shouldSkipConstraint { baseConfig with ShowAllConstraints := true }
        [⟨"Table1"⟩, ⟨"Table2"⟩] ⟨"", "Table1", "", "", false, false⟩ = false ∧
    shouldSkipConstraint baseConfig [⟨"Table1"⟩, ⟨"Table2"⟩]
        ⟨"UnknownTable", "Table1", "", "", false, false⟩ = true := by
  constructor
  · exact (shouldSkipConstraint_spec _ _ _).1 rfl
  · exact ((shouldSkipConstraint_spec _ _ _).2 rfl).mpr (Or.inr (by decide))

/-! ### Table naming (C5)

The three cases of `TestGetTableName` re-proved against the model. -/

example :
    getTableName baseConfig ⟨"SchemaName", "TableName"⟩ = "TableName" := by decide

example :
    getTableName { baseConfig with ShowSchemaPrefix := true, SchemaPrefixSeparator := "_" }
      ⟨"SchemaName", "TableName"⟩ = "SchemaName_TableName" := by decide

example :
    getTableName { baseConfig with ShowSchemaPrefix := true, SchemaPrefixSeparator := "." }
      ⟨"SchemaName", "TableName"⟩ = "\"SchemaName.TableName\"" := by decide

/-- C5: `getTableName` returns the bare table name when schema-prefix
display is disabled; when enabled it returns schema ++ separator ++ name,
wrapped in double quotes exactly when the separator is the single full-stop
character. -/
theorem getTableName_spec (config : MermerdConfig) (t : TableDetail) :
    (config.ShowSchemaPrefix = false → getTableName config t = t.Name) ∧
    (config.ShowSchemaPrefix = true → config.SchemaPrefixSeparator = "." →
      getTableName config t = "\"" ++ (t.Schema ++ "." ++ t.Name) ++ "\"") ∧
    (config.ShowSchemaPrefix = true → config.SchemaPrefixSeparator ≠ "." →
      getTableName config t = t.Schema ++ config.SchemaPrefixSeparator ++ t.Name) := by
  refine ⟨?_, ?_, ?_⟩
  · intro h
    simp [getTableName, h]
  · intro h hsep
    simp [getTableName, h, hsep]
  · intro h hsep
    simp [getTableName, h, hsep]

/-- C5 witness: `getTableName_spec` discharged on the fixtures of
`TestGetTableName`. -/
theorem getTableName_spec_witness :
    getTableName baseConfig ⟨"SchemaName", "TableName"⟩ = "TableName" ∧
    getTableName { baseConfig with ShowSchemaPrefix := true, SchemaPrefixSeparator := "." }
        ⟨"SchemaName", "TableName"⟩ = "\"SchemaName.TableName\"" ∧
    getTableName { baseConfig with ShowSchemaPrefix := true, SchemaPrefixSeparator := "_" }
        ⟨"SchemaName", "TableName"⟩ = "SchemaName_TableName" := by
  refine ⟨(getTableName_spec _ _).1 rfl, ?_, ?_⟩
  · have h := (getTableName_spec
      { baseConfig with ShowSchemaPrefix := true, SchemaPrefixSeparator := "." }
      ⟨"SchemaName", "TableName"⟩).2.1 rfl rfl
    rw [h]
    decide
  · have h := (getTableName_spec
      { baseConfig with ShowSchemaPrefix := true, SchemaPrefixSeparator := "_" }
      ⟨"SchemaName", "TableName"⟩).2.2 rfl (by decide)
    rw [h]
    decide

/-! ### Stable-sort theory

Generic facts about a boolean strict order, instantiated at `tableLess`
and `columnLess` to reason about the two `sort.SliceStable` calls. -/

/-- A strict order is asymmetric. -/
theorem ltb_asymm {α : Type _} (lt : α → α → Bool)
    (hirr : ∀ x, lt x x = false)
    (htr : ∀ x y z, lt x y = true → lt y z = true → lt x z = true)
    (x y : α) (h : lt x y = true) : lt y x = false := by
  by_contra hc
  have := htr x y x h (by simpa using hc)
  simp [hirr] at this

/-- The reflexive companion `fun a b => lt b a = false` of a connected
strict order is transitive. -/
theorem ltb_neg_trans {α : Type _} (lt : α → α → Bool)
    (hirr : ∀ x, lt x x = false)
    (htr : ∀ x y z, lt x y = true → lt y z = true → lt x z = true)
    (hconn : ∀ x y, lt x y = false → lt y x = false → x = y)
    (x y z : α) (h₁ : lt y x = false) (h₂ : lt z y = false) : lt z x = false := by
  by_contra hc
  have hzx : lt z x = true := by simpa using hc
  cases hxy : lt x y with
  | false =>
    have hxy' := hconn x y hxy h₁
    rw [hxy'] at hzx
    rw [h₂] at hzx
    exact Bool.false_ne_true hzx
  | true =>
    cases hyz : lt y z with
    | false =>
      have hyz' := hconn y z hyz h₂
      rw [← hyz'] at hzx
      have := htr x y x hxy hzx
      simp [hirr] at this
    | true =>
      have hxz := htr x y z hxy hyz
      have := htr z x z hzx hxz
      simp [hirr] at this

/-- The reflexive companion of a strict order is total. -/
theorem ltb_neg_total {α : Type _} (lt : α → α → Bool)
    (hirr : ∀ x, lt x x = false)
    (htr : ∀ x y z, lt x y = true → lt y z = true → lt x z = true)
    (x y : α) : lt y x = false ∨ lt x y = false := by
  cases h : lt y x with
  | false => exact Or.inl rfl
  | true => exact Or.inr (ltb_asymm lt hirr htr y x h)

/-- Strings neither of which is below the other are interchangeable:
`strLt b a = false` says exactly `a < b` or `a = b`. -/
theorem strLt_false_iff (a b : String) :
    strLt b a = false ↔ (strLt a b = true ∨ a = b) := by
  constructor
  · intro h
    cases hab : strLt a b with
    | true => exact Or.inl rfl
    | false => exact Or.inr (strLt_antisymm hab h)
  · rintro (h | rfl)
    · exact strLt_asymm h
    · exact strLt_irrefl a

/-- Negative transitivity of the string comparison. -/
theorem strLt_neg_trans {a b c : String}
    (h₁ : strLt b a = false) (h₂ : strLt c b = false) : strLt c a = false :=
  ltb_neg_trans strLt strLt_irrefl (fun _ _ _ hxy hyz => strLt_trans hxy hyz)
    (fun _ _ hxy hyx => strLt_antisymm hxy hyx) a b c h₁ h₂

/-- Normal form of the Go table comparison. -/
theorem tableLess_eq (a b : TableDetail) :
    tableLess a b =
      if a.Schema = b.Schema then strLt a.Name b.Name else strLt a.Schema b.Schema := by
  by_cases h : a.Schema = b.Schema <;> simp [tableLess, h]

theorem tableLess_irrefl (a : TableDetail) : tableLess a a = false := by
  simp [tableLess_eq, strLt_irrefl]

theorem tableLess_trans (a b c : TableDetail)
    (h₁ : tableLess a b = true) (h₂ : tableLess b c = true) : tableLess a c = true := by
  rw [tableLess_eq] at h₁ h₂ ⊢
  by_cases hab : a.Schema = b.Schema <;> by_cases hbc : b.Schema = c.Schema
  · rw [if_pos hab] at h₁
    rw [if_pos hbc] at h₂
    rw [if_pos (hab.trans hbc)]
    exact strLt_trans h₁ h₂
  · rw [if_pos hab] at h₁
    rw [if_neg hbc] at h₂
    rw [if_neg (fun h => hbc (hab.symm.trans h)), hab]
    exact h₂
  · rw [if_neg hab] at h₁
    rw [if_pos hbc] at h₂
    rw [if_neg (fun h => hab (h.trans hbc.symm)), ← hbc]
    exact h₁
  · rw [if_neg hab] at h₁
    rw [if_neg hbc] at h₂
    by_cases hac : a.Schema = c.Schema
    · exfalso
      rw [hac] at h₁
      have := strLt_asymm h₁
      rw [this] at h₂
      exact Bool.false_ne_true h₂
    · rw [if_neg hac]
      exact strLt_trans h₁ h₂

theorem tableLess_conn (a b : TableDetail)
    (h₁ : tableLess a b = false) (h₂ : tableLess b a = false) : a = b := by
  rw [tableLess_eq] at h₁ h₂
  by_cases hs : a.Schema = b.Schema
  · rw [if_pos hs] at h₁
    rw [if_pos hs.symm] at h₂
    have hn : a.Name = b.Name := strLt_antisymm h₁ h₂
    cases a; cases b
    simp_all
  · exfalso
    rw [if_neg hs] at h₁
    rw [if_neg (fun h => hs h.symm)] at h₂
    exact hs (strLt_antisymm h₁ h₂)

/-- The list produced by `sortTables` is ordered by the non-strict
companion of the Go comparison. -/
theorem sortTables_sorted (ts : List TableDetail) :
    (sortTables ts).Pairwise tableLe := by
  haveI : IsTrans TableDetail tableLe :=
    ⟨fun a b c h₁ h₂ =>
      ltb_neg_trans tableLess tableLess_irrefl tableLess_trans tableLess_conn a b c h₁ h₂⟩
  haveI : IsTotal TableDetail tableLe :=
    ⟨fun a b => ltb_neg_total tableLess tableLess_irrefl tableLess_trans a b⟩
  exact List.sorted_insertionSort tableLe ts

/-- The list produced by `sortColumns` is ordered by name. -/
theorem sortColumns_sorted (cs : List ColumnResult) :
    (sortColumns cs).Pairwise columnLe := by
  haveI : IsTrans ColumnResult columnLe := by
    refine ⟨fun a b c h₁ h₂ => ?_⟩
    have h₁' : strLt b.Name a.Name = false := h₁
    have h₂' : strLt c.Name b.Name = false := h₂
    exact strLt_neg_trans h₁' h₂'
  haveI : IsTotal ColumnResult columnLe := by
    refine ⟨fun a b => ?_⟩
    rcases ltb_neg_total strLt strLt_irrefl
        (fun x y z hxy hyz => strLt_trans hxy hyz) a.Name b.Name with h | h
    · exact Or.inl h
    · exact Or.inr h
  exact List.sorted_insertionSort columnLe cs

/-- Insertion sort leaves the subsequence of elements satisfying a
predicate untouched whenever any two such elements are related — the
filter form of sort stability. -/
theorem filter_insertionSort {α : Type _} (r : α → α → Prop) [DecidableRel r]
    (l : List α) (p : α → Bool)
    (hp : ∀ a b, p a = true → p b = true → r a b) :
    (l.insertionSort r).filter p = l.filter p := by
  have hpw : (l.filter p).Pairwise r :=
    List.pairwise_of_forall_mem_list fun a ha b hb =>
      hp a b (List.of_mem_filter ha) (List.of_mem_filter hb)
  have hsub : List.Sublist (l.filter p) (l.insertionSort r) :=
    List.sublist_insertionSort hpw (List.filter_sublist l)
  have hsub₂ : List.Sublist (l.filter p) ((l.insertionSort r).filter p) := by
    have h₁ := hsub.filter p
    rwa [List.filter_eq_self.mpr (fun a ha => List.of_mem_filter ha)] at h₁
  have hperm : List.Perm ((l.insertionSort r).filter p) (l.filter p) :=
    (List.perm_insertionSort r l).filter p
  exact (hsub₂.eq_of_length hperm.length_eq.symm).symm

/-! ### Stability and permutation of the sorts (C10) -/

example :
    sortTables [⟨"s", "a"⟩, ⟨"s", "a"⟩] = [⟨"s", "a"⟩, ⟨"s", "a"⟩] := by decide

example :
    sortColumns [⟨"n", "int", true, false, "", ""⟩, ⟨"n", "text", false, false, "", ""⟩] =
      [⟨"n", "int", true, false, "", ""⟩, ⟨"n", "text", false, false, "", ""⟩] := by decide

/-- C10: `sortTables` and `sortColumns` return permutations of their input
(no element dropped, duplicated, modified, or deduplicated), and the
subsequence of entries sharing any fixed sort key — a (Schema, Name) pair
for tables, a Name for columns — is exactly the same subsequence as in the
input, i.e. equal-key elements keep their original relative order. -/
theorem sort_permutation_stable :
    (∀ ts : List TableDetail, List.Perm (sortTables ts) ts ∧
      ∀ sc nm : String,
        (sortTables ts).filter (fun t => t.Schema == sc && t.Name == nm) =
          ts.filter (fun t => t.Schema == sc && t.Name == nm)) ∧
    (∀ cs : List ColumnResult, List.Perm (sortColumns cs) cs ∧
      ∀ nm : String,
        (sortColumns cs).filter (fun c => c.Name == nm) =
          cs.filter (fun c => c.Name == nm)) := by
  constructor
  · intro ts
    refine ⟨List.perm_insertionSort _ _, ?_⟩
    intro sc nm
    apply filter_insertionSort
    intro a b ha hb
    simp only [Bool.and_eq_true, beq_iff_eq] at ha hb
    show tableLess b a = false
    rw [tableLess_eq, ha.1, ha.2, hb.1, hb.2, if_pos rfl]
    exact strLt_irrefl nm
  · intro cs
    refine ⟨List.perm_insertionSort _ _, ?_⟩
    intro nm
    apply filter_insertionSort
    intro a b ha hb
    simp only [beq_iff_eq] at ha hb
    show strLt b.Name a.Name = false
    rw [ha, hb]
    exact strLt_irrefl nm

/-! ### Loader fail-fast behaviour (C7) -/

/-- Complete case analysis of the per-table fetch loop: either every fetch
succeeded and the results are the per-table records in input order, or the
loop aborted with the error of some failing fetch and an empty result
list. -/
theorem gcc_cases (db : Connector) : ∀ ts : List TableDetail,
    ((getColumnsAndConstraints db ts).2 = Option.none ∧
      (getColumnsAndConstraints db ts).1 =
        ts.map (fun t => ⟨t, sortColumns (db.GetColumns t).1, (db.GetConstraints t).1⟩) ∧
      ∀ t ∈ ts, (db.GetColumns t).2 = Option.none ∧ (db.GetConstraints t).2 = Option.none) ∨
    (∃ e, getColumnsAndConstraints db ts = ([], Option.some e) ∧
      ∃ t ∈ ts,
        (db.GetColumns t).2 = Option.some e ∨ (db.GetConstraints t).2 = Option.some e) := by
  intro ts
  induction ts with
  | nil =>
    left
    refine ⟨rfl, by simp [getColumnsAndConstraints], by simp⟩
  | cons t rest ih =>
    cases hcol : db.GetColumns t with
    | mk cols ce =>
      cases ce with
      | some e =>
        right
        refine ⟨e, by simp [getColumnsAndConstraints, hcol], t, List.mem_cons_self t rest,
          Or.inl (by rw [hcol])⟩
      | none =>
        cases hcon : db.GetConstraints t with
        | mk cns ke =>
          cases ke with
          | some e =>
            right
            refine ⟨e, by simp [getColumnsAndConstraints, hcol, hcon], t,
              List.mem_cons_self t rest, Or.inr (by rw [hcon])⟩
          | none =>
            rcases ih with ⟨h₂, h₁, hall⟩ | ⟨e, heq, t', ht', hsrc⟩
            · left
              have hrec : getColumnsAndConstraints db rest =
                  (rest.map (fun t =>
                    ⟨t, sortColumns (db.GetColumns t).1, (db.GetConstraints t).1⟩),
                   Option.none) := by
                rw [← h₁, ← h₂]
              have hcons : getColumnsAndConstraints db (t :: rest) =
                  (⟨t, sortColumns cols, cns⟩ ::
                    rest.map (fun t =>
                      ⟨t, sortColumns (db.GetColumns t).1, (db.GetConstraints t).1⟩),
                   Option.none) := by
                simp [getColumnsAndConstraints, hcol, hcon, hrec]
              refine ⟨by rw [hcons], ?_, ?_⟩
              · rw [hcons]
                simp [hcol, hcon]
              · intro t'' hmem
                rcases List.mem_cons.mp hmem with rfl | hmem'
                · exact ⟨by rw [hcol], by rw [hcon]⟩
                · exact hall t'' hmem'
            · right
              refine ⟨e, by simp [getColumnsAndConstraints, hcol, hcon, heq], t',
                List.mem_cons_of_mem t ht', hsrc⟩

/-- C7: `GetColumnsAndConstraints` fails fast — on success it returns
exactly one `TableResult` per selected table in input order; if any fetch
fails it returns an error (the error of a failing fetch) together with an
empty result list, exposing no partial results. -/
theorem getColumnsAndConstraints_spec (db : Connector) (ts : List TableDetail) :
    ((getColumnsAndConstraints db ts).2 = Option.none →
      (getColumnsAndConstraints db ts).1 =
        ts.map fun t => ⟨t, sortColumns (db.GetColumns t).1, (db.GetConstraints t).1⟩) ∧
    (∀ e, (getColumnsAndConstraints db ts).2 = Option.some e →
      (getColumnsAndConstraints db ts).1 = [] ∧
      ∃ t ∈ ts,
        (db.GetColumns t).2 = Option.some e ∨ (db.GetConstraints t).2 = Option.some e) ∧
    ((∃ t ∈ ts, (db.GetColumns t).2 ≠ Option.none ∨ (db.GetConstraints t).2 ≠ Option.none) →
      (getColumnsAndConstraints db ts).2 ≠ Option.none) := by
  rcases gcc_cases db ts with ⟨h₂, h₁, hall⟩ | ⟨e, heq, t', ht', hsrc⟩
  · refine ⟨fun _ => h₁, ?_, ?_⟩
    · intro e he
      rw [h₂] at he
      exact absurd he (by simp)
    · rintro ⟨t, ht, hf⟩ _
      rcases hf with hf | hf
      · exact hf (hall t ht).1
      · exact hf (hall t ht).2
  · have h1 : (getColumnsAndConstraints db ts).1 = [] := by rw [heq]
    have h2 : (getColumnsAndConstraints db ts).2 = Option.some e := by rw [heq]
    refine ⟨?_, ?_, ?_⟩
    · intro hn
      rw [h2] at hn
      exact absurd hn (by simp)
    · intro e' he'
      rw [h2] at he'
      obtain rfl : e = e' := by injection he'
      exact ⟨h1, t', ht', hsrc⟩
    · intro _ hn
      rw [h2] at hn
      exact absurd hn (by simp)

/-- C7 witness: `getColumnsAndConstraints_spec` discharged on a two-table
selection whose second table's columns fetch fails with `boom` — the
loader returns no partial results. -/
theorem getColumnsAndConstraints_spec_witness :
    (getColumnsAndConstraints failingColumnsDb [⟨"s", "ok"⟩, ⟨"s", "bad"⟩]).1 = [] :=
  ((getColumnsAndConstraints_spec failingColumnsDb [⟨"s", "ok"⟩, ⟨"s", "bad"⟩]).2.1
    "boom" rfl).1

/-! ### Schema resolution (C8) -/

/-- C8: with no configured schemas and no use-all override, and the
provider succeeding, `GetSchemas` fails with the `no schemas available`
error (and an empty schema list) on zero provider schemas, auto-selects a
single schema without consulting the questioner, and returns the
questioner's multi-select answer for two or more. -/
theorem getSchemas_spec (config : MermerdConfig) (q : Questioner) (db : Connector)
    (hcfg : config.Schemas = []) (hall : config.UseAllSchemas = false)
    (ss : List String) (hdb : db.GetSchemas = (ss, Option.none)) :
    (ss = [] → getSchemas config q db = ([], Option.some "no schemas available")) ∧
    (∀ s, ss = [s] → getSchemas config q db = ([s], Option.none)) ∧
    (2 ≤ ss.length → getSchemas config q db = q.AskSchemaQuestion ss) := by
  unfold getSchemas
  rw [hcfg, hdb]
  simp only [List.length_nil, lt_irrefl, if_false, hall, Bool.false_eq_true]
  refine ⟨?_, ?_, ?_⟩
  · rintro rfl
    rfl
  · rintro s rfl
    rfl
  · intro hlen
    cases ss with
    | nil => simp at hlen
    | cons a tl =>
      cases tl with
      | nil => simp at hlen
      | cons b tl' => rfl

/-- C8 witness: `getSchemas_spec` discharged at providers returning zero,
one, and two schemas under the all-defaults configuration. -/
theorem getSchemas_spec_witness :
    getSchemas baseConfig trivialQuestioner zeroSchemasDb =
      ([], Option.some "no schemas available") ∧
    getSchemas baseConfig trivialQuestioner oneSchemaDb = (["main"], Option.none) ∧
    getSchemas baseConfig choosyQuestioner twoSchemasDb =
      choosyQuestioner.AskSchemaQuestion ["alpha", "beta"] :=
  ⟨(getSchemas_spec baseConfig trivialQuestioner zeroSchemasDb rfl rfl [] rfl).1 rfl,
   (getSchemas_spec baseConfig trivialQuestioner oneSchemaDb rfl rfl ["main"] rfl).2.1
      "main" rfl,
   (getSchemas_spec baseConfig choosyQuestioner twoSchemasDb rfl rfl
      ["alpha", "beta"] rfl).2.2 (by decide)⟩

/-! ### Explicit table selection (C9) -/

/-- C9: with a non-empty configured table list, `GetTables` succeeds,
neither queries the provider nor consults any other configuration (the
result depends only on the configured list and the schema scope), and
yields pointwise: the parsed descriptor when the `schema.table` string
resolves, and the zero-value descriptor when parsing fails — the run
continues instead of aborting. -/
theorem getTables_explicit_spec (config : MermerdConfig) (q : Questioner) (db : Connector)
    (schemas : List String) (hsel : config.SelectedTables ≠ []) :
    (getTables config q db schemas).2 = Option.none ∧
    (∀ (config' : MermerdConfig) (q' : Questioner) (db' : Connector),
      config'.SelectedTables = config.SelectedTables →
      getTables config' q' db' schemas = getTables config q db schemas) ∧
    List.Forall₂ (fun v d =>
        (∀ x, parseTableName v schemas = Except.ok x → d = x) ∧
        (∀ e, parseTableName v schemas = Except.error e → d = zeroTableDetail))
      config.SelectedTables (getTables config q db schemas).1 := by
  have hlen : 0 < config.SelectedTables.length := List.length_pos.mpr hsel
  refine ⟨?_, ?_, ?_⟩
  · unfold getTables
    rw [if_pos hlen]
  · intro config' q' db' hsame
    unfold getTables
    rw [hsame, if_pos hlen, if_pos hlen]
  · unfold getTables
    rw [if_pos hlen]
    simp only [List.forall₂_map_right_iff]
    rw [List.forall₂_same]
    intro v hv
    constructor
    · intro x hx
      simp [resolveTableName, hx]
    · intro e he
      simp [resolveTableName, he]

/-- C9 witness: `getTables_explicit_spec` discharged on the configuration
selecting `s.good` (resolvable against schema `s`) and `bad`
(unresolvable); the run succeeds and the unresolvable entry is the
zero-value descriptor. -/
theorem getTables_explicit_spec_witness :
    (getTables explicitTablesConfig trivialQuestioner zeroSchemasDb ["s"]).2 =
      Option.none ∧
    (getTables explicitTablesConfig trivialQuestioner zeroSchemasDb ["s"]).1 =
      [⟨"s", "good"⟩, zeroTableDetail] :=
  ⟨(getTables_explicit_spec explicitTablesConfig trivialQuestioner zeroSchemasDb ["s"]
      (by decide)).1,
   by decide⟩

/-! ### Ordering of a successful run (C6) -/

/-- The sort order established by `sortTables`, phrased as the claim
phrases it: schema strictly below, or equal schemas and name at most
equal. -/
theorem tableLe_iff (a b : TableDetail) :
    tableLe a b ↔
      (strLt a.Schema b.Schema = true ∨
        (a.Schema = b.Schema ∧ (strLt a.Name b.Name = true ∨ a.Name = b.Name))) := by
  unfold tableLe
  rw [tableLess_eq]
  by_cases hs : a.Schema = b.Schema
  · rw [if_pos hs.symm, hs]
    simp [strLt_irrefl, strLt_false_iff]
  · rw [if_neg (fun h => hs h.symm), strLt_false_iff]
    simp [hs]

/-- A successful run of the fetch loop over an already-sorted table list
yields an ordered result. -/
theorem gcc_sorted_ordered (db : Connector) (ts0 : List TableDetail)
    (rs : List TableResult)
    (hgcc : getColumnsAndConstraints db (sortTables ts0) = (rs, Option.none)) :
    analyzeResultOrdered ⟨rs⟩ := by
  rcases gcc_cases db (sortTables ts0) with ⟨h₂, h₁, _⟩ | ⟨e', heq, _⟩
  · have hrs : rs = (sortTables ts0).map
        (fun t => ⟨t, sortColumns (db.GetColumns t).1, (db.GetConstraints t).1⟩) := by
      rw [hgcc] at h₁
      simpa using h₁
    refine ⟨?_, ?_⟩
    · show rs.Pairwise _
      rw [hrs, List.pairwise_map]
      refine (sortTables_sorted ts0).imp ?_
      intro a b hab
      exact (tableLe_iff a b).mp hab
    · intro tr htr
      rw [show (Result.mk rs).Tables = rs from rfl, hrs] at htr
      obtain ⟨t, _, rfl⟩ := List.mem_map.mp htr
      refine (sortColumns_sorted _).imp ?_
      intro a b hab
      exact (strLt_false_iff a.Name b.Name).mp hab
  · rw [hgcc] at heq
    simp at heq

/-- C6 amended: the tables of a successful `Analyze` run are ordered by
non-decreasing (Schema, Name) key — strictly whenever two neighbouring
keys differ — and the columns of every table result are non-decreasing by
name. -/
theorem analyze_result_ordered (config : MermerdConfig) (q : Questioner)
    (fac : String → Connector × Option String) (res : Result) (e : Option String)
    (h : analyze config q fac = (Option.some res, e)) : analyzeResultOrdered res := by
  unfold analyze at h
  split at h
  · simp at h
  · split at h
    · simp at h
    · split at h
      · simp at h
      · split at h
        · simp at h
        · split at h
          · simp at h
          · split at h
            · simp at h
            · injection h with h₁ h₂
              injection h₁ with h₁
              subst h₁
              exact gcc_sorted_ordered _ _ _ (by assumption)

/-- C6 counterexample: a successful run in which the provider reports the
same table twice — both copies are kept, so two neighbouring table results
carry equal (Schema, Name) keys and the claimed strict ordering fails. -/
theorem analyze_strict_order_counterexample :
    analyze dupRunConfig trivialQuestioner dupTablesFactory =
      (Option.some ⟨[⟨⟨"s", "a"⟩, [], []⟩, ⟨⟨"s", "a"⟩, [], []⟩]⟩, Option.none) ∧
    ¬ strictTableOrder ⟨[⟨⟨"s", "a"⟩, [], []⟩, ⟨⟨"s", "a"⟩, [], []⟩]⟩ := by
  constructor
  · rfl
  · intro hstrict
    obtain ⟨hpw, _⟩ := hstrict
    rw [List.pairwise_cons] at hpw
    have hrel := hpw.1 _ (List.mem_singleton_self _)
    exact absurd hrel (by decide)

/-- C6 witness: `analyze_result_ordered` discharged on a run whose provider
returns tables out of order — the result comes back sorted. -/
theorem analyze_result_ordered_witness :
    analyzeResultOrdered ⟨[⟨⟨"s", "a"⟩, [], []⟩, ⟨⟨"s", "b"⟩, [], []⟩]⟩ :=
  analyze_result_ordered dupRunConfig trivialQuestioner unsortedTablesFactory
    ⟨[⟨⟨"s", "a"⟩, [], []⟩, ⟨⟨"s", "b"⟩, [], []⟩]⟩ Option.none rfl

end Mermerd
